import Mathlib

/-
Verification development for the lsbasi Pascal-like interpreter front end.

The repository contains two iterations of the interpreter:
* src/ (older): bare-compound grammar, integer-only lexer, case-sensitive
  environment;
* src/src/ (newer): full grammar with PROGRAM/VAR declarations, integer and
  real constants, case-insensitive keywords and a case-insensitive
  environment.

This file embeds the newer iteration (src/src/Lexer.cpp, src/src/main.cpp,
src/src/AST.h), which is the one the specification describes.  Where
src/src/main.cpp references declarations missing from src/src/AST.h
(the BinOpNode operators IntegerDiv/FloatDiv and a real-valued LeafNumNode
constructor), the missing parts are modelled from the spec and marked as
such in their doc comments.
-/

----------------------------------------------------------------
-- Tokens (src/src/TokenType.h, src/src/Token.h)
----------------------------------------------------------------

/-- The token-kind enumeration of src/src/TokenType.h. -/
inductive TokenType where
  | Program
  | Var
  | Begin
  | End
  | Integer
  | Real
  | IntegerDiv
  | Identifier
  | IntegerConstant
  | RealConstant
  | Dot
  | Assign
  | Semicolon
  | LeftParen
  | RightParen
  | Colon
  | Comma
  | Plus
  | Minus
  | Mul
  | FloatDiv
  | EndOfFile
deriving DecidableEq

/-- A token: a kind plus an optional payload string (src/src/Token.h). -/
structure Token where
  type : TokenType
  value : Option String := none
deriving DecidableEq

----------------------------------------------------------------
-- Character classification (cctype, as used by src/src/Lexer.cpp)
----------------------------------------------------------------

/-- C std isspace for the ASCII range. -/
def isSpaceChar (c : Char) : Bool :=
  c = ' ' || c = '\t' || c = '\n' || c = '\x0b' || c = '\x0c' || c = '\r'

/-- C std isdigit. -/
def isDigitChar (c : Char) : Bool :=
  '0' ≤ c && c ≤ '9'

/-- C std isalpha for the ASCII range. -/
def isAlphaChar (c : Char) : Bool :=
  ('a' ≤ c && c ≤ 'z') || ('A' ≤ c && c ≤ 'Z')

/-- C std isalnum for the ASCII range. -/
def isAlnumChar (c : Char) : Bool :=
  isAlphaChar c || isDigitChar c

/-- ASCII lower-casing of one character, as boost to_lower does per char. -/
def lowerChar (c : Char) : Char :=
  if 'A' ≤ c ∧ c ≤ 'Z' then Char.ofNat (c.toNat + 32) else c

/-- boost algorithm to_lower_copy on a string. -/
def lowerStr (s : String) : String :=
  String.mk (s.data.map lowerChar)

----------------------------------------------------------------
-- Lexer (src/src/Lexer.h, src/src/Lexer.cpp)
--
-- State is the member pair (mText, mPos).  Every C++ while loop is
-- embedded as a fuel-indexed recursion; each loop strictly advances
-- mPos while mPos < mText.length, so fuel (mText.length - mPos + 1)
-- is always sufficient and the out-of-fuel branch is unreachable.
----------------------------------------------------------------

/-- Lexer state: the member variables mText and mPos of class Lexer. -/
structure Lexer where
  mText : List Char
  mPos : Nat
deriving DecidableEq

/-- Lexical failure: the invalid_argument thrown by Lexer::Advance for an
unrecognized character, plus the (unreachable) fuel sentinel. -/
inductive LexError where
  | unrecognizedChar (pos : Nat) (c : Char)
  | outOfFuel
deriving DecidableEq

/-- Loop body of Lexer::SkipWhitespaces. -/
def skipWhitespacesAux : Nat → List Char → Nat → Nat
  | 0, _, pos => pos
  | fuel + 1, t, pos =>
    if h : pos < t.length then
      if isSpaceChar (t.get ⟨pos, h⟩) then skipWhitespacesAux fuel t (pos + 1)
      else pos
    else pos

/-- Lexer::SkipWhitespaces — advance mPos past whitespace. -/
def skipWhitespaces (t : List Char) (pos : Nat) : Nat :=
  skipWhitespacesAux (t.length - pos + 1) t pos

/-- First loop of Lexer::SkipComment — advance mPos up to the closing brace. -/
def skipToCloseBraceAux : Nat → List Char → Nat → Nat
  | 0, _, pos => pos
  | fuel + 1, t, pos =>
    if h : pos < t.length then
      if t.get ⟨pos, h⟩ ≠ '\x7d' then skipToCloseBraceAux fuel t (pos + 1)
      else pos
    else pos

/-- Lexer::SkipComment — skip a brace comment, consuming the closing brace
when present. -/
def skipComment (t : List Char) (pos : Nat) : Nat :=
  let p := skipToCloseBraceAux (t.length - pos + 1) t pos
  if h : p < t.length then
    if t.get ⟨p, h⟩ = '\x7d' then p + 1 else p
  else p

/-- Digit-collecting loop used twice by Lexer::ReadAsNumberConstant. -/
def readDigitsAux : Nat → List Char → Nat → List Char → List Char × Nat
  | 0, _, pos, acc => (acc, pos)
  | fuel + 1, t, pos, acc =>
    if h : pos < t.length then
      let c := t.get ⟨pos, h⟩
      if isDigitChar c then readDigitsAux fuel t (pos + 1) (acc ++ [c])
      else (acc, pos)
    else (acc, pos)

/-- Digit-collecting loop with always-sufficient fuel. -/
def readDigits (t : List Char) (pos : Nat) (acc : List Char) : List Char × Nat :=
  readDigitsAux (t.length - pos + 1) t pos acc

/-- Lexer::ReadAsNumberConstant: collect digits; when a dot follows, the dot
and any further digits are appended and a RealConstant token is produced,
otherwise an IntegerConstant token. -/
def readAsNumberConstant (t : List Char) (pos : Nat) : Token × Nat :=
  let (chars, p) := readDigits t pos []
  if h : p < t.length then
    if t.get ⟨p, h⟩ = '.' then
      let (chars2, p2) := readDigits t (p + 1) (chars ++ ['.'])
      (⟨.RealConstant, some (String.mk chars2)⟩, p2)
    else (⟨.IntegerConstant, some (String.mk chars)⟩, p)
  else (⟨.IntegerConstant, some (String.mk chars)⟩, p)

/-- Identifier-collecting loop of Lexer::ReadAsKeywordOrIdentifier. -/
def readIdentCharsAux : Nat → List Char → Nat → List Char → List Char × Nat
  | 0, _, pos, acc => (acc, pos)
  | fuel + 1, t, pos, acc =>
    if h : pos < t.length then
      let c := t.get ⟨pos, h⟩
      if isAlnumChar c || c = '_' then readIdentCharsAux fuel t (pos + 1) (acc ++ [c])
      else (acc, pos)
    else (acc, pos)

/-- The RESERVED_KEYWORDS table of src/src/Lexer.cpp. -/
def reservedKeywords : List (String × TokenType) :=
  [("begin", .Begin), ("end", .End), ("div", .IntegerDiv),
   ("program", .Program), ("var", .Var), ("integer", .Integer),
   ("real", .Real)]

/-- Lexer::ReadAsKeywordOrIdentifier: collect an alphanumeric/underscore run;
a case-insensitive match against the keyword table yields the keyword token,
otherwise an Identifier token with the verbatim spelling. -/
def readAsKeywordOrIdentifier (t : List Char) (pos : Nat) : Token × Nat :=
  let (chars, p) := readIdentCharsAux (t.length - pos + 1) t pos []
  match reservedKeywords.lookup (lowerStr (String.mk chars)) with
  | some tt => (⟨tt, none⟩, p)
  | none => (⟨.Identifier, some (String.mk chars)⟩, p)

/-- The while loop of Lexer::Advance.  Each iteration either returns a token
or (for whitespace and comments) strictly advances mPos and continues. -/
def advanceAux : Nat → Lexer → Except LexError (Token × Lexer)
  | 0, _ => .error .outOfFuel
  | fuel + 1, lx =>
    if h : lx.mPos < lx.mText.length then
      let c := lx.mText.get ⟨lx.mPos, h⟩
      if isSpaceChar c then
        advanceAux fuel ⟨lx.mText, skipWhitespaces lx.mText lx.mPos⟩
      else if c = '\x7b' then
        advanceAux fuel ⟨lx.mText, skipComment lx.mText lx.mPos⟩
      else if isDigitChar c then
        let (tok, p) := readAsNumberConstant lx.mText lx.mPos
        .ok (tok, ⟨lx.mText, p⟩)
      else if isAlphaChar c || c = '_' then
        let (tok, p) := readAsKeywordOrIdentifier lx.mText lx.mPos
        .ok (tok, ⟨lx.mText, p⟩)
      else if c = '+' then .ok (⟨.Plus, none⟩, ⟨lx.mText, lx.mPos + 1⟩)
      else if c = '-' then .ok (⟨.Minus, none⟩, ⟨lx.mText, lx.mPos + 1⟩)
      else if c = '*' then .ok (⟨.Mul, none⟩, ⟨lx.mText, lx.mPos + 1⟩)
      else if c = '/' then .ok (⟨.FloatDiv, none⟩, ⟨lx.mText, lx.mPos + 1⟩)
      else if c = '(' then .ok (⟨.LeftParen, none⟩, ⟨lx.mText, lx.mPos + 1⟩)
      else if c = ')' then .ok (⟨.RightParen, none⟩, ⟨lx.mText, lx.mPos + 1⟩)
      else if c = ';' then .ok (⟨.Semicolon, none⟩, ⟨lx.mText, lx.mPos + 1⟩)
      else if c = '.' then .ok (⟨.Dot, none⟩, ⟨lx.mText, lx.mPos + 1⟩)
      else if c = ',' then .ok (⟨.Comma, none⟩, ⟨lx.mText, lx.mPos + 1⟩)
      else if c = ':' then
        let p := lx.mPos + 1
        if h2 : p < lx.mText.length then
          if lx.mText.get ⟨p, h2⟩ = '=' then
            .ok (⟨.Assign, none⟩, ⟨lx.mText, p + 1⟩)
          else .ok (⟨.Colon, none⟩, ⟨lx.mText, p⟩)
        else .ok (⟨.Colon, none⟩, ⟨lx.mText, p⟩)
      else .error (.unrecognizedChar lx.mPos c)
    else .ok (⟨.EndOfFile, none⟩, lx)

/-- Lexer::Advance — produce the next token.  When mPos has reached the end
of mText the loop body never runs and the EndOfFile token is returned with
the state untouched. -/
def advance (lx : Lexer) : Except LexError (Token × Lexer) :=
  advanceAux (lx.mText.length - lx.mPos + 1) lx

/-- The Tokenize helper of src/src/main.cpp: call Advance until EndOfFile,
collecting every token (the EndOfFile token included).  Fuel bounds the
loop; any fuel larger than the number of tokens suffices. -/
def tokenize : Nat → Lexer → Except LexError (List Token)
  | 0, _ => .error .outOfFuel
  | fuel + 1, lx =>
    match advance lx with
    | .error e => .error e
    | .ok (tok, lx') =>
      if tok.type = .EndOfFile then .ok [tok]
      else
        match tokenize fuel lx' with
        | .error e => .error e
        | .ok toks => .ok (tok :: toks)

----------------------------------------------------------------
-- AST node model (src/src/AST.h)
----------------------------------------------------------------

/-- UnOpNode::Operator. -/
inductive UnOperator where
  | plus
  | minus
deriving DecidableEq

/-- BinOpNode::Operator.  The members plus, minus, mul and div are the
enumerators Plus, Minus, Mul, Div of src/src/AST.h (div is the integer
division used by ExpressionCalculator).  Modelled from the spec: the
additional floatDiv member stands for the FloatDiv operator that
Parser::ParseAsTerm (src/src/main.cpp) references as BinOpNode::FloatDiv but
whose declaration is missing from src/src/AST.h; the spec distinguishes
IntegerDiv (truncating) from FloatDiv (non-truncating). -/
inductive BinOperator where
  | plus
  | minus
  | mul
  | div
  | floatDiv
deriving DecidableEq

/-- A numeric value.  Modelled from the spec: src/src/AST.h stores only int
in LeafNumNode, but Parser::ParseAsFactor (src/src/main.cpp) constructs a
real-valued LeafNumNode from a RealConstant lexeme via a constructor missing
from src/src/AST.h; per the spec a NumberLiteral distinguishes integer from
real representation and mixing promotes to the wider type. -/
inductive NumValue where
  | int (v : Int)
  | real (q : ℚ)
deriving DecidableEq

/-- The closed node set of src/src/AST.h (expression/statement part used by
the visitors): BinOpNode, LeafNumNode, UnOpNode, LeafVarNode, LeafNopNode,
AssignNode, CompoundNode. -/
inductive ASTNode where
  | binop (left right : ASTNode) (op : BinOperator)
  | num (value : NumValue)
  | unop (expression : ASTNode) (op : UnOperator)
  | var (name : String)
  | nop
  | assign (left : String) (right : ASTNode)
  | compound (children : List ASTNode)

/-- CompoundNode::GetCount — the number of children of a compound node
(0 for every other node kind). -/
def ASTNode.GetCount : ASTNode → Nat
  | .compound children => children.length
  | _ => 0

----------------------------------------------------------------
-- Numeric operations of the evaluator
----------------------------------------------------------------

/-- View a numeric value as a rational (the promotion to the wider type). -/
def NumValue.toRat : NumValue → ℚ
  | .int v => (v : ℚ)
  | .real q => q

/-- Truncation of a rational toward zero (what a C++ int cast performs). -/
def ratTrunc (q : ℚ) : Int :=
  Int.tdiv q.num (q.den : Int)

/-- Addition: int + int stays int (the int arithmetic of
ExpressionCalculator); any real operand promotes per the spec. -/
def numAdd : NumValue → NumValue → NumValue
  | .int a, .int b => .int (a + b)
  | a, b => .real (a.toRat + b.toRat)

/-- Subtraction, promoting as numAdd does. -/
def numSub : NumValue → NumValue → NumValue
  | .int a, .int b => .int (a - b)
  | a, b => .real (a.toRat - b.toRat)

/-- Multiplication, promoting as numAdd does. -/
def numMul : NumValue → NumValue → NumValue
  | .int a, .int b => .int (a * b)
  | a, b => .real (a.toRat * b.toRat)

/-- Integer division: on ints this is C++ operator/ on int, which truncates
toward zero (Int.tdiv); a real operand is truncated toward zero after exact
division (spec: IntegerDiv truncates toward zero). -/
def numIntDiv : NumValue → NumValue → NumValue
  | .int a, .int b => .int (Int.tdiv a b)
  | a, b => .int (ratTrunc (a.toRat / b.toRat))

/-- Modelled from the spec: FloatDiv always yields the non-truncated
quotient. -/
def numFloatDiv (a b : NumValue) : NumValue :=
  .real (a.toRat / b.toRat)

/-- Negation (unary minus of ExpressionCalculator). -/
def numNeg : NumValue → NumValue
  | .int v => .int (-v)
  | .real q => .real (-q)

/-- Whether a numeric value is zero (the divisor test for division). -/
def numIsZero : NumValue → Bool
  | .int v => v = 0
  | .real q => q = 0

----------------------------------------------------------------
-- ExpressionCalculator (src/src/AST.h)
----------------------------------------------------------------

/-- Evaluation failure: the runtime_error "variable is not defined" of
Visit(LeafVarNode), and the arithmetic fault raised by a division whose
divisor is zero (spec section 7, ArithmeticError). -/
inductive EvalError where
  | unboundVariable
  | arithmeticError
deriving DecidableEq

/-- Evaluator state: the members m_scope (a std map from name to value,
kept in ascending key order) and m_acc of ExpressionCalculator. -/
structure CalcState where
  scope : List (String × NumValue)
  acc : NumValue
deriving DecidableEq

/-- Lexicographic comparison of character lists, as std string operator<. -/
def strLtAux : List Char → List Char → Bool
  | [], [] => false
  | [], _ :: _ => true
  | _ :: _, [] => false
  | a :: as, b :: bs =>
    if a.toNat < b.toNat then true
    else if b.toNat < a.toNat then false
    else strLtAux as bs

/-- std string operator< (byte-wise lexicographic order). -/
def strLt (a b : String) : Bool :=
  strLtAux a.data b.data

/-- The find_if of Visit(LeafVarNode)/Visit(AssignNode): first entry of
m_scope (in key order) whose lower-cased key equals the lower-cased name
being looked up.  The argument lname is already lower-cased. -/
def scopeFind (scope : List (String × NumValue)) (lname : String) :
    Option (String × NumValue) :=
  scope.find? (fun pair => lowerStr pair.1 == lname)

/-- std map emplace: insert the pair in ascending key order; an exact
existing key leaves the map unchanged. -/
def mapEmplace : List (String × NumValue) → String → NumValue →
    List (String × NumValue)
  | [], k, v => [(k, v)]
  | (k', v') :: rest, k, v =>
    if strLt k k' then (k, v) :: (k', v') :: rest
    else if k = k' then (k', v') :: rest
    else (k', v') :: mapEmplace rest k v

/-- Assignment through the iterator returned by find_if: replace the value
stored under the exact key k. -/
def scopeSetExact : List (String × NumValue) → String → NumValue →
    List (String × NumValue)
  | [], _, _ => []
  | (k', v') :: rest, k, v =>
    if k = k' then (k', v) :: rest
    else (k', v') :: scopeSetExact rest k v

mutual

/-- ASTNode::Accept dispatching into the Visit overloads of
ExpressionCalculator (src/src/AST.h).  Each Visit mutates (m_scope, m_acc);
Calculate(node) is Accept followed by reading m_acc, so a recursive
Calculate is a recursive visit here.  A division with zero divisor faults:
the C++ integer division traps and the spec names it ArithmeticError,
never caught inside the evaluator. -/
def visit : ASTNode → CalcState → Except EvalError CalcState
  | .num v, st => .ok { st with acc := v }
  | .binop l r op, st =>
    match visit l st with
    | .error e => .error e
    | .ok st1 =>
      match visit r st1 with
      | .error e => .error e
      | .ok st2 =>
        match op with
        | .plus => .ok { st2 with acc := numAdd st1.acc st2.acc }
        | .minus => .ok { st2 with acc := numSub st1.acc st2.acc }
        | .mul => .ok { st2 with acc := numMul st1.acc st2.acc }
        | .div =>
          if numIsZero st2.acc then .error .arithmeticError
          else .ok { st2 with acc := numIntDiv st1.acc st2.acc }
        | .floatDiv =>
          if numIsZero st2.acc then .error .arithmeticError
          else .ok { st2 with acc := numFloatDiv st1.acc st2.acc }
  | .unop e op, st =>
    match visit e st with
    | .error err => .error err
    | .ok st1 =>
      match op with
      | .plus => .ok { st1 with acc := st1.acc }
      | .minus => .ok { st1 with acc := numNeg st1.acc }
  | .var name, st =>
    match scopeFind st.scope (lowerStr name) with
    | none => .error .unboundVariable
    | some (_, v) => .ok { st with acc := v }
  | .nop, st => .ok st
  | .assign name rhs, st =>
    match scopeFind st.scope (lowerStr name) with
    | none =>
      match visit rhs st with
      | .error e => .error e
      | .ok st1 => .ok { st1 with scope := mapEmplace st1.scope name st1.acc }
    | some (k, _) =>
      match visit rhs st with
      | .error e => .error e
      | .ok st1 => .ok { st1 with scope := scopeSetExact st1.scope k st1.acc }
  | .compound children, st => visitList children st

/-- Visit(CompoundNode): accept each child in insertion order. -/
def visitList : List ASTNode → CalcState → Except EvalError CalcState
  | [], st => .ok st
  | c :: cs, st =>
    match visit c st with
    | .error e => .error e
    | .ok st1 => visitList cs st1

end

/-- ExpressionCalculator::Calculate — accept the node, then return m_acc
(paired here with the post-state). -/
def calculate (node : ASTNode) (st : CalcState) :
    Except EvalError (NumValue × CalcState) :=
  match visit node st with
  | .error e => .error e
  | .ok st' => .ok (st'.acc, st')

----------------------------------------------------------------
-- Notation translators (src/src/AST.h)
--
-- ReversePolishNotationTranslator and LispStyleNotationTranslator
-- implement only the Visit overloads for LeafNumNode, UnOpNode and
-- BinOpNode; the remaining overloads are left pure virtual, so the
-- classes can only be applied to pure-expression subtrees.
----------------------------------------------------------------

/-- Translation failure: the invalid_argument thrown by each translator on
a UnOpNode, the logic_error of an operator outside the handled switch
cases, and a marker for the node kinds with no Visit implementation. -/
inductive TransError where
  | unaryOperatorRpn
  | unaryOperatorLisp
  | undefinedOperator
  | noVisitOverload
deriving DecidableEq

/-- std to_string of the value held by a LeafNumNode. -/
def numToString : NumValue → String
  | .int v => toString v
  | .real q => toString q

/-- ReversePolishNotationTranslator::Translate.  Visit(UnOpNode) throws
invalid_argument; Visit(BinOpNode) dispatches on the operator first and
throws logic_error on an operator outside its four cases, otherwise it
renders "left right operator". -/
def rpnTranslate : ASTNode → Except TransError String
  | .num v => .ok (numToString v)
  | .unop _ _ => .error .unaryOperatorRpn
  | .binop l r op =>
    match op with
    | .plus =>
      match rpnTranslate l with
      | .error e => .error e
      | .ok ls =>
        match rpnTranslate r with
        | .error e => .error e
        | .ok rs => .ok (ls ++ " " ++ rs ++ " +")
    | .minus =>
      match rpnTranslate l with
      | .error e => .error e
      | .ok ls =>
        match rpnTranslate r with
        | .error e => .error e
        | .ok rs => .ok (ls ++ " " ++ rs ++ " -")
    | .mul =>
      match rpnTranslate l with
      | .error e => .error e
      | .ok ls =>
        match rpnTranslate r with
        | .error e => .error e
        | .ok rs => .ok (ls ++ " " ++ rs ++ " *")
    | .div =>
      match rpnTranslate l with
      | .error e => .error e
      | .ok ls =>
        match rpnTranslate r with
        | .error e => .error e
        | .ok rs => .ok (ls ++ " " ++ rs ++ " /")
    | .floatDiv => .error .undefinedOperator
  | _ => .error .noVisitOverload

/-- LispStyleNotationTranslator::Translate, rendering
"(operator left right)"; fails on UnOpNode exactly as the postfix
translator does. -/
def lispTranslate : ASTNode → Except TransError String
  | .num v => .ok (numToString v)
  | .unop _ _ => .error .unaryOperatorLisp
  | .binop l r op =>
    match op with
    | .plus =>
      match lispTranslate l with
      | .error e => .error e
      | .ok ls =>
        match lispTranslate r with
        | .error e => .error e
        | .ok rs => .ok ("(+ " ++ ls ++ " " ++ rs ++ ")")
    | .minus =>
      match lispTranslate l with
      | .error e => .error e
      | .ok ls =>
        match lispTranslate r with
        | .error e => .error e
        | .ok rs => .ok ("(- " ++ ls ++ " " ++ rs ++ ")")
    | .mul =>
      match lispTranslate l with
      | .error e => .error e
      | .ok ls =>
        match lispTranslate r with
        | .error e => .error e
        | .ok rs => .ok ("(* " ++ ls ++ " " ++ rs ++ ")")
    | .div =>
      match lispTranslate l with
      | .error e => .error e
      | .ok ls =>
        match lispTranslate r with
        | .error e => .error e
        | .ok rs => .ok ("(/ " ++ ls ++ " " ++ rs ++ ")")
    | .floatDiv => .error .undefinedOperator
  | _ => .error .noVisitOverload

/-- Whether a tree uses only the node kinds the translators implement
(LeafNumNode, BinOpNode, UnOpNode): the pure-expression subtrees of the
spec. -/
def exprOnly : ASTNode → Bool
  | .num _ => true
  | .unop e _ => exprOnly e
  | .binop l r _ => exprOnly l && exprOnly r
  | _ => false

mutual

/-- Whether a tree contains a UnOpNode anywhere. -/
def containsUnop : ASTNode → Bool
  | .num _ => false
  | .unop _ _ => true
  | .binop l r _ => containsUnop l || containsUnop r
  | .var _ => false
  | .nop => false
  | .assign _ rhs => containsUnop rhs
  | .compound cs => containsUnopList cs

/-- containsUnop over a child list. -/
def containsUnopList : List ASTNode → Bool
  | [] => false
  | c :: cs => containsUnop c || containsUnopList cs

end

----------------------------------------------------------------
-- Parser (src/src/main.cpp)
--
-- The parser holds one token of lookahead (mCurrentToken) and pulls
-- further tokens from the lexer.  Here the pending tokens are the list
-- produced by Tokenize; pulling past its end repeats EndOfFile, exactly
-- as Lexer::Advance does at the end of input.  Each recursive-descent
-- routine is fuel-indexed; fuel only bounds the recursion depth and any
-- fuel larger than the input size suffices.
----------------------------------------------------------------

/-- Parse failure: the runtime_error of EatAndAdvance (cannot parse as
the expected kind), the runtime_error of ParseAsFactor, a dereference of a missing
token payload, and the fuel sentinel. -/
inductive ParseError where
  | expected (kind : TokenType)
  | cannotParseAsFactor
  | missingValue
  | outOfFuel
deriving DecidableEq

/-- Parser state: mCurrentToken plus the pending token list. -/
structure Parser where
  mCurrentToken : Token
  mTokens : List Token
deriving DecidableEq

/-- Pull the next token (Lexer::Advance seen through the token list):
past the end the EndOfFile sentinel repeats. -/
def pullToken (p : Parser) : Parser :=
  match p.mTokens with
  | [] => ⟨⟨.EndOfFile, none⟩, []⟩
  | t :: ts => ⟨t, ts⟩

/-- Parser construction: the constructor pulls the first token into
mCurrentToken. -/
def parserInit (tokens : List Token) : Parser :=
  match tokens with
  | [] => ⟨⟨.EndOfFile, none⟩, []⟩
  | t :: ts => ⟨t, ts⟩

/-- Parser::EatAndAdvance — verify the current token kind, then pull the
next token; otherwise fail with the expected kind. -/
def eatAndAdvance (kind : TokenType) (p : Parser) : Except ParseError Parser :=
  if p.mCurrentToken.type = kind then .ok (pullToken p)
  else .error (.expected kind)

/-- Parser::ParseAsVariable — take the current Identifier payload as the
variable name. -/
def parseAsVariable (p : Parser) : Except ParseError (String × Parser) :=
  match p.mCurrentToken.value with
  | none => .error .missingValue
  | some identifier =>
    match eatAndAdvance .Identifier p with
    | .error e => .error e
    | .ok p1 => .ok (identifier, p1)

/-- Digit-string accumulation used to model std stoi / std stod on the
digit runs produced by the lexer. -/
def digitsToNat : List Char → Nat → Nat
  | [], acc => acc
  | c :: cs, acc =>
    if isDigitChar c then digitsToNat cs (acc * 10 + (c.toNat - '0'.toNat))
    else acc

/-- std stoi on an IntegerConstant lexeme (a run of decimal digits). -/
def strToInt (s : String) : Int :=
  Int.ofNat (digitsToNat s.data 0)

/-- std stod on a RealConstant lexeme (digits, optionally a dot and more
digits), read exactly. -/
def strToRat (s : String) : ℚ :=
  let ip := s.data.takeWhile isDigitChar
  let rest := s.data.drop ip.length
  let fp :=
    match rest with
    | '.' :: more => more.takeWhile isDigitChar
    | _ => []
  (digitsToNat ip 0 : ℚ) + (digitsToNat fp 0 : ℚ) / ((10 : ℚ) ^ fp.length)

mutual

/-- Parser::ParseAsFactor — unary plus/minus (right-recursive), integer and
real constants, parenthesized expression, or variable. -/
def parseAsFactor : Nat → Parser → Except ParseError (ASTNode × Parser)
  | 0, _ => .error .outOfFuel
  | fuel + 1, p =>
    if p.mCurrentToken.type = .Minus then
      match eatAndAdvance .Minus p with
      | .error e => .error e
      | .ok p1 =>
        match parseAsFactor fuel p1 with
        | .error e => .error e
        | .ok (node, p2) => .ok (.unop node .minus, p2)
    else if p.mCurrentToken.type = .Plus then
      match eatAndAdvance .Plus p with
      | .error e => .error e
      | .ok p1 =>
        match parseAsFactor fuel p1 with
        | .error e => .error e
        | .ok (node, p2) => .ok (.unop node .plus, p2)
    else if p.mCurrentToken.type = .IntegerConstant then
      match p.mCurrentToken.value with
      | none => .error .missingValue
      | some lexeme =>
        match eatAndAdvance .IntegerConstant p with
        | .error e => .error e
        | .ok p1 => .ok (.num (.int (strToInt lexeme)), p1)
    else if p.mCurrentToken.type = .RealConstant then
      match p.mCurrentToken.value with
      | none => .error .missingValue
      | some lexeme =>
        match eatAndAdvance .RealConstant p with
        | .error e => .error e
        | .ok p1 => .ok (.num (.real (strToRat lexeme)), p1)
    else if p.mCurrentToken.type = .LeftParen then
      match eatAndAdvance .LeftParen p with
      | .error e => .error e
      | .ok p1 =>
        match parseAsExpr fuel p1 with
        | .error e => .error e
        | .ok (node, p2) =>
          match eatAndAdvance .RightParen p2 with
          | .error e => .error e
          | .ok p3 => .ok (node, p3)
    else if p.mCurrentToken.type = .Identifier then
      match parseAsVariable p with
      | .error e => .error e
      | .ok (name, p1) => .ok (.var name, p1)
    else .error .cannotParseAsFactor

/-- Parser::ParseAsTerm — a factor followed by the multiplicative loop. -/
def parseAsTerm : Nat → Parser → Except ParseError (ASTNode × Parser)
  | 0, _ => .error .outOfFuel
  | fuel + 1, p =>
    match parseAsFactor fuel p with
    | .error e => .error e
    | .ok (node, p1) => parseAsTermLoop fuel node p1

/-- The while loop of Parser::ParseAsTerm over Mul / IntegerDiv / FloatDiv,
folding left-associatively.  The IntegerDiv token maps to the evaluator
Div operator and the FloatDiv token to the spec-modelled floatDiv. -/
def parseAsTermLoop : Nat → ASTNode → Parser → Except ParseError (ASTNode × Parser)
  | 0, _, _ => .error .outOfFuel
  | fuel + 1, node, p =>
    if p.mCurrentToken.type = .Mul then
      match eatAndAdvance .Mul p with
      | .error e => .error e
      | .ok p1 =>
        match parseAsFactor fuel p1 with
        | .error e => .error e
        | .ok (right, p2) => parseAsTermLoop fuel (.binop node right .mul) p2
    else if p.mCurrentToken.type = .IntegerDiv then
      match eatAndAdvance .IntegerDiv p with
      | .error e => .error e
      | .ok p1 =>
        match parseAsFactor fuel p1 with
        | .error e => .error e
        | .ok (right, p2) => parseAsTermLoop fuel (.binop node right .div) p2
    else if p.mCurrentToken.type = .FloatDiv then
      match eatAndAdvance .FloatDiv p with
      | .error e => .error e
      | .ok p1 =>
        match parseAsFactor fuel p1 with
        | .error e => .error e
        | .ok (right, p2) => parseAsTermLoop fuel (.binop node right .floatDiv) p2
    else .ok (node, p)

/-- Parser::ParseAsExpr — a term followed by the additive loop. -/
def parseAsExpr : Nat → Parser → Except ParseError (ASTNode × Parser)
  | 0, _ => .error .outOfFuel
  | fuel + 1, p =>
    match parseAsTerm fuel p with
    | .error e => .error e
    | .ok (node, p1) => parseAsExprLoop fuel node p1

/-- The while loop of Parser::ParseAsExpr over Plus / Minus, folding
left-associatively. -/
def parseAsExprLoop : Nat → ASTNode → Parser → Except ParseError (ASTNode × Parser)
  | 0, _, _ => .error .outOfFuel
  | fuel + 1, node, p =>
    if p.mCurrentToken.type = .Plus then
      match eatAndAdvance .Plus p with
      | .error e => .error e
      | .ok p1 =>
        match parseAsTerm fuel p1 with
        | .error e => .error e
        | .ok (right, p2) => parseAsExprLoop fuel (.binop node right .plus) p2
    else if p.mCurrentToken.type = .Minus then
      match eatAndAdvance .Minus p with
      | .error e => .error e
      | .ok p1 =>
        match parseAsTerm fuel p1 with
        | .error e => .error e
        | .ok (right, p2) => parseAsExprLoop fuel (.binop node right .minus) p2
    else .ok (node, p)

end

/-- Parser::ParseAsAssignment — variable, Assign token, expression. -/
def parseAsAssignment (fuel : Nat) (p : Parser) :
    Except ParseError (ASTNode × Parser) :=
  match parseAsVariable p with
  | .error e => .error e
  | .ok (name, p1) =>
    match eatAndAdvance .Assign p1 with
    | .error e => .error e
    | .ok p2 =>
      match parseAsExpr fuel p2 with
      | .error e => .error e
      | .ok (expr, p3) => .ok (.assign name expr, p3)

mutual

/-- Parser::ParseAsStatement — compound on Begin, assignment on Identifier,
otherwise an empty statement parsed as a LeafNopNode without consuming any
token. -/
def parseAsStatement : Nat → Parser → Except ParseError (ASTNode × Parser)
  | 0, _ => .error .outOfFuel
  | fuel + 1, p =>
    if p.mCurrentToken.type = .Begin then parseAsCompound fuel p
    else if p.mCurrentToken.type = .Identifier then parseAsAssignment fuel p
    else .ok (.nop, p)

/-- Parser::ParseAsStatementList — one statement, then the semicolon loop;
the children are collected into a CompoundNode in order. -/
def parseAsStatementList : Nat → Parser → Except ParseError (ASTNode × Parser)
  | 0, _ => .error .outOfFuel
  | fuel + 1, p =>
    match parseAsStatement fuel p with
    | .error e => .error e
    | .ok (first, p1) =>
      match parseAsStatementListLoop fuel p1 with
      | .error e => .error e
      | .ok (rest, p2) => .ok (.compound (first :: rest), p2)

/-- The while loop of Parser::ParseAsStatementList: while the current token
is a semicolon, eat it and parse one more statement. -/
def parseAsStatementListLoop : Nat → Parser →
    Except ParseError (List ASTNode × Parser)
  | 0, _ => .error .outOfFuel
  | fuel + 1, p =>
    if p.mCurrentToken.type = .Semicolon then
      match eatAndAdvance .Semicolon p with
      | .error e => .error e
      | .ok p1 =>
        match parseAsStatement fuel p1 with
        | .error e => .error e
        | .ok (s, p2) =>
          match parseAsStatementListLoop fuel p2 with
          | .error e => .error e
          | .ok (ss, p3) => .ok (s :: ss, p3)
    else .ok ([], p)

/-- Parser::ParseAsCompound — Begin, statement list, End. -/
def parseAsCompound : Nat → Parser → Except ParseError (ASTNode × Parser)
  | 0, _ => .error .outOfFuel
  | fuel + 1, p =>
    match eatAndAdvance .Begin p with
    | .error e => .error e
    | .ok p1 =>
      match parseAsStatementList fuel p1 with
      | .error e => .error e
      | .ok (node, p2) =>
        match eatAndAdvance .End p2 with
        | .error e => .error e
        | .ok p3 => .ok (node, p3)

end

----------------------------------------------------------------
-- Helper lemmas
----------------------------------------------------------------

/-- Double negation is the identity on numeric values. -/
theorem numNeg_numNeg (v : NumValue) : numNeg (numNeg v) = v := by
  cases v <;> simp [numNeg]

----------------------------------------------------------------
-- Claims
----------------------------------------------------------------

/-- Claim C1: assigning to variable name number, then to NUMBER, then
evaluating a VariableRef to Number reads the value of the second assignment, and
the Environment holds exactly one entry for that name: Assignment upserts
under the raw case-preserving name comparing existing keys
case-insensitively, and VariableRef lookup matches any spelling
case-insensitively. -/
theorem c1_case_insensitive_environment (v1 v2 : Int) :
    visit (.compound [.assign "number" (.num (.int v1)),
                      .assign "NUMBER" (.num (.int v2))]) ⟨[], .int 0⟩ =
      .ok ⟨[("number", .int v2)], .int v2⟩ ∧
    calculate (.var "Number") ⟨[("number", .int v2)], .int v2⟩ =
      .ok (.int v2, ⟨[("number", .int v2)], .int v2⟩) :=
  ⟨rfl, rfl⟩

/-- Claim C3: parsing the input "- - b" produces a UnOpNode(Minus) whose
operand is another UnOpNode(Minus) wrapping b, never a binary Minus node,
and evaluating the doubly nested unary-minus tree yields the same value
as evaluating b alone. -/
theorem c3_double_unary_minus :
    (∀ (n : Nat) (cur : Token) (rest : List Token) (b : ASTNode) (p' : Parser),
      parseAsFactor n ⟨cur, rest⟩ = .ok (b, p') →
      parseAsFactor (n + 2) ⟨⟨.Minus, none⟩, ⟨.Minus, none⟩ :: cur :: rest⟩ =
        .ok (.unop (.unop b .minus) .minus, p')) ∧
    (∀ (b : ASTNode) (st : CalcState) (v : NumValue) (st' : CalcState),
      calculate b st = .ok (v, st') →
      calculate (.unop (.unop b .minus) .minus) st = .ok (v, st')) := by
  constructor
  · intro n cur rest b p' h
    show (match
        (match parseAsFactor n ⟨cur, rest⟩ with
         | .error e => (.error e : Except ParseError (ASTNode × Parser))
         | .ok (node, p2) => .ok (.unop node .minus, p2)) with
      | .error e => (.error e : Except ParseError (ASTNode × Parser))
      | .ok (node, p2) => .ok (.unop node .minus, p2)) =
      .ok (.unop (.unop b .minus) .minus, p')
    rw [h]
  · intro b st v st' h
    unfold calculate at h ⊢
    cases hv : visit b st with
    | error e => rw [hv] at h; exact absurd h (by simp)
    | ok s =>
      rw [hv] at h
      simp only [Except.ok.injEq, Prod.mk.injEq] at h
      obtain ⟨hval, hst⟩ := h
      subst hst hval
      show (match
          (match (match visit b st with
            | .error err => (.error err : Except EvalError CalcState)
            | .ok st1 => .ok { st1 with acc := numNeg st1.acc }) with
            | .error err => (.error err : Except EvalError CalcState)
            | .ok st1 => .ok { st1 with acc := numNeg st1.acc }) with
        | .error e => (.error e : Except EvalError (NumValue × CalcState))
        | .ok st2 => .ok (st2.acc, st2)) = .ok (s.acc, s)
      rw [hv]
      simp [numNeg_numNeg]

/-- Witness for claim C3 at b = LeafNumNode 5. -/
theorem c3_double_unary_minus_witness :
    parseAsFactor 3 ⟨⟨.Minus, none⟩,
        [⟨.Minus, none⟩, ⟨.IntegerConstant, some "5"⟩]⟩ =
      .ok (.unop (.unop (.num (.int 5)) .minus) .minus, ⟨⟨.EndOfFile, none⟩, []⟩) ∧
    calculate (.unop (.unop (.num (.int 5)) .minus) .minus) ⟨[], .int 0⟩ =
      .ok (.int 5, ⟨[], .int 5⟩) :=
  ⟨c3_double_unary_minus.1 1 ⟨.IntegerConstant, some "5"⟩ [] (.num (.int 5))
      ⟨⟨.EndOfFile, none⟩, []⟩ rfl,
   c3_double_unary_minus.2 (.num (.int 5)) ⟨[], .int 0⟩ (.int 5) ⟨[], .int 5⟩ rfl⟩

/-- Claim C5: a BinOpNode with a division operator whose right operand
evaluates to zero fails with an arithmetic error rather than returning a
value, and errors are never caught, retried or downgraded inside the
evaluator: every enclosing construct propagates a child error verbatim. -/
theorem c5_division_by_zero :
    (∀ (l r : ASTNode) (st st1 st2 : CalcState),
      visit l st = .ok st1 → visit r st1 = .ok st2 → numIsZero st2.acc = true →
      visit (.binop l r .div) st = .error .arithmeticError ∧
      visit (.binop l r .floatDiv) st = .error .arithmeticError) ∧
    (∀ (e : ASTNode) (st : CalcState) (err : EvalError) (op : UnOperator),
      visit e st = .error err → visit (.unop e op) st = .error err) ∧
    (∀ (l r : ASTNode) (st : CalcState) (err : EvalError) (op : BinOperator),
      visit l st = .error err → visit (.binop l r op) st = .error err) ∧
    (∀ (l r : ASTNode) (st st1 : CalcState) (err : EvalError) (op : BinOperator),
      visit l st = .ok st1 → visit r st1 = .error err →
      visit (.binop l r op) st = .error err) ∧
    (∀ (name : String) (rhs : ASTNode) (st : CalcState) (err : EvalError),
      visit rhs st = .error err → visit (.assign name rhs) st = .error err) ∧
    (∀ (c : ASTNode) (cs : List ASTNode) (st : CalcState) (err : EvalError),
      visit c st = .error err → visit (.compound (c :: cs)) st = .error err) := by
  refine ⟨?_, ?_, ?_, ?_, ?_, ?_⟩
  · intro l r st st1 st2 h1 h2 h3
    constructor <;> simp [visit, h1, h2, h3]
  · intro e st err op h
    simp [visit, h]
  · intro l r st err op h
    simp [visit, h]
  · intro l r st st1 err op h1 h2
    simp [visit, h1, h2]
  · intro name rhs st err h
    cases hf : scopeFind st.scope (lowerStr name) with
    | none => simp [visit, hf, h]
    | some kv => cases kv with
      | mk k v0 => simp [visit, hf, h]
  · intro c cs st err h
    simp [visit, visitList, h]

/-- Witness for claim C5 at 1 div 0 and at error propagation through a
unary minus. -/
theorem c5_division_by_zero_witness :
    (visit (.binop (.num (.int 1)) (.num (.int 0)) .div) ⟨[], .int 0⟩ =
      .error .arithmeticError) ∧
    visit (.unop (.binop (.num (.int 1)) (.num (.int 0)) .div) .minus)
        ⟨[], .int 0⟩ = .error .arithmeticError :=
  ⟨(c5_division_by_zero.1 (.num (.int 1)) (.num (.int 0)) ⟨[], .int 0⟩
      ⟨[], .int 1⟩ ⟨[], .int 0⟩ rfl rfl rfl).1,
   c5_division_by_zero.2.1 (.binop (.num (.int 1)) (.num (.int 0)) .div)
      ⟨[], .int 0⟩ .arithmeticError .minus
      (c5_division_by_zero.1 (.num (.int 1)) (.num (.int 0)) ⟨[], .int 0⟩
        ⟨[], .int 1⟩ ⟨[], .int 0⟩ rfl rfl rfl).1⟩

/-- Claim C6: a VariableRef whose name has never been assigned (compared
case-insensitively) fails with the unbound-variable error rather than
yielding a default value, and a variable lookup never modifies the
Environment. -/
theorem c6_unbound_variable :
    (∀ (sc : List (String × NumValue)) (acc0 : NumValue) (name : String),
      scopeFind sc (lowerStr name) = none →
      visit (.var name) ⟨sc, acc0⟩ = .error .unboundVariable) ∧
    (∀ (name : String) (st st' : CalcState),
      visit (.var name) st = .ok st' → st'.scope = st.scope) := by
  constructor
  · intro sc acc0 name h
    simp [visit, h]
  · intro name st st' h
    simp only [visit] at h
    cases hf : scopeFind st.scope (lowerStr name) with
    | none =>
      simp only [hf] at h
      exact Except.noConfusion h
    | some kv =>
      obtain ⟨k, v⟩ := kv
      simp only [hf, Except.ok.injEq] at h
      subst h
      rfl

/-- Witness for claim C6: reading a in an empty environment fails. -/
theorem c6_unbound_variable_witness :
    visit (.var "a") ⟨[], .int 0⟩ = .error .unboundVariable :=
  c6_unbound_variable.1 [] (.int 0) "a" rfl

/-- Claim C8: parsing the statement list a := 1;; b := 2 yields a compound
whose middle child is a NoOp node, and visiting a NoOp node returns the
evaluator state (Environment and accumulator) exactly unchanged. -/
theorem c8_noop_statement :
    tokenize 16 ⟨"a := 1;; b := 2".data, 0⟩ =
      .ok [⟨.Identifier, some "a"⟩, ⟨.Assign, none⟩, ⟨.IntegerConstant, some "1"⟩,
           ⟨.Semicolon, none⟩, ⟨.Semicolon, none⟩, ⟨.Identifier, some "b"⟩,
           ⟨.Assign, none⟩, ⟨.IntegerConstant, some "2"⟩, ⟨.EndOfFile, none⟩] ∧
    parseAsStatementList 8 (parserInit
        [⟨.Identifier, some "a"⟩, ⟨.Assign, none⟩, ⟨.IntegerConstant, some "1"⟩,
         ⟨.Semicolon, none⟩, ⟨.Semicolon, none⟩, ⟨.Identifier, some "b"⟩,
         ⟨.Assign, none⟩, ⟨.IntegerConstant, some "2"⟩, ⟨.EndOfFile, none⟩]) =
      .ok (.compound [.assign "a" (.num (.int 1)), .nop,
                      .assign "b" (.num (.int 2))],
           ⟨⟨.EndOfFile, none⟩, []⟩) ∧
    ∀ st : CalcState, visit .nop st = .ok st :=
  ⟨rfl, rfl, fun _ => rfl⟩

/-- Claim C9: once the position of the lexer has reached the end of the input,
Advance returns the EndOfFile token and leaves the lexer state unchanged,
so every subsequent call keeps returning EndOfFile. -/
theorem c9_eof_idempotent (lx : Lexer) (h : lx.mText.length ≤ lx.mPos) :
    advance lx = .ok (⟨.EndOfFile, none⟩, lx) := by
  unfold advance
  rw [Nat.sub_eq_zero_of_le h]
  exact dif_neg (by omega)

/-- Witness for claim C9 at an exhausted one-character input. -/
theorem c9_eof_idempotent_witness :
    advance ⟨['a'], 1⟩ = .ok (⟨.EndOfFile, none⟩, ⟨['a'], 1⟩) :=
  c9_eof_idempotent ⟨['a'], 1⟩ (by decide)

/-- Claim C10: every compound produced by the statement-list rule of the parser
(and hence by every parsed begin-end compound) has at least one child,
an empty statement slot contributing a NoOp child; begin end parses to a
compound with exactly one NoOp child. -/
theorem c10_compound_nonempty :
    (∀ (fuel : Nat) (p : Parser) (node : ASTNode) (p' : Parser),
      parseAsStatementList fuel p = .ok (node, p') →
      ∃ cs, node = .compound cs ∧ 1 ≤ cs.length) ∧
    (∀ (fuel : Nat) (p : Parser) (node : ASTNode) (p' : Parser),
      parseAsCompound fuel p = .ok (node, p') →
      ∃ cs, node = .compound cs ∧ 1 ≤ cs.length) ∧
    tokenize 8 ⟨"begin end".data, 0⟩ =
      .ok [⟨.Begin, none⟩, ⟨.End, none⟩, ⟨.EndOfFile, none⟩] ∧
    parseAsCompound 4 (parserInit [⟨.Begin, none⟩, ⟨.End, none⟩, ⟨.EndOfFile, none⟩]) =
      .ok (.compound [.nop], ⟨⟨.EndOfFile, none⟩, []⟩) := by
  have H1 : ∀ (fuel : Nat) (p : Parser) (node : ASTNode) (p' : Parser),
      parseAsStatementList fuel p = .ok (node, p') →
      ∃ cs, node = .compound cs ∧ 1 ≤ cs.length := by
    intro fuel p node p' h
    match fuel with
    | 0 => exact absurd h (by simp [parseAsStatementList])
    | n + 1 =>
      simp only [parseAsStatementList] at h
      cases hs : parseAsStatement n p with
      | error e =>
        simp only [hs] at h
        exact Except.noConfusion h
      | ok fp =>
        obtain ⟨first, p1⟩ := fp
        simp only [hs] at h
        cases hl : parseAsStatementListLoop n p1 with
        | error e =>
          simp only [hl] at h
          exact Except.noConfusion h
        | ok rp =>
          obtain ⟨rest, p2⟩ := rp
          simp only [hl, Except.ok.injEq, Prod.mk.injEq] at h
          exact ⟨first :: rest, h.1.symm, by simp⟩
  refine ⟨H1, ?_, rfl, rfl⟩
  intro fuel p node p' h
  match fuel with
  | 0 => exact absurd h (by simp [parseAsCompound])
  | n + 1 =>
    simp only [parseAsCompound] at h
    cases he : eatAndAdvance .Begin p with
    | error e =>
      simp only [he] at h
      exact Except.noConfusion h
    | ok p1 =>
      simp only [he] at h
      cases hsl : parseAsStatementList n p1 with
      | error e =>
        simp only [hsl] at h
        exact Except.noConfusion h
      | ok np =>
        obtain ⟨node1, p2⟩ := np
        simp only [hsl] at h
        cases he2 : eatAndAdvance .End p2 with
        | error e =>
          simp only [he2] at h
          exact Except.noConfusion h
        | ok p3 =>
          simp only [he2, Except.ok.injEq, Prod.mk.injEq] at h
          obtain ⟨hn, _⟩ := h
          subst hn
          exact H1 n p1 node1 p2 hsl

/-- Every expression tree containing a UnOpNode makes the postfix
translator fail with some error. -/
theorem rpnTranslate_unop_fails :
    ∀ t : ASTNode, exprOnly t = true → containsUnop t = true →
      ∃ e, rpnTranslate t = .error e
  | .unop _ _ => fun _ _ => ⟨.unaryOperatorRpn, rfl⟩
  | .num _ => by simp [containsUnop]
  | .var _ => by simp [exprOnly]
  | .nop => by simp [exprOnly]
  | .assign _ _ => by simp [exprOnly]
  | .compound _ => by simp [exprOnly]
  | .binop l r op => fun h1 h2 => by
    simp only [exprOnly, Bool.and_eq_true] at h1
    simp only [containsUnop, Bool.or_eq_true] at h2
    cases op
    case floatDiv => exact ⟨.undefinedOperator, rfl⟩
    all_goals {
      rcases h2 with hl | hr
      · obtain ⟨e, he⟩ := rpnTranslate_unop_fails l h1.1 hl
        exact ⟨e, by simp [rpnTranslate, he]⟩
      · cases hres : rpnTranslate l with
        | error e => exact ⟨e, by simp [rpnTranslate, hres]⟩
        | ok ls =>
          obtain ⟨e, he⟩ := rpnTranslate_unop_fails r h1.2 hr
          exact ⟨e, by simp [rpnTranslate, hres, he]⟩
    }

/-- Every expression tree containing a UnOpNode makes the Lisp-style
translator fail with some error. -/
theorem lispTranslate_unop_fails :
    ∀ t : ASTNode, exprOnly t = true → containsUnop t = true →
      ∃ e, lispTranslate t = .error e
  | .unop _ _ => fun _ _ => ⟨.unaryOperatorLisp, rfl⟩
  | .num _ => by simp [containsUnop]
  | .var _ => by simp [exprOnly]
  | .nop => by simp [exprOnly]
  | .assign _ _ => by simp [exprOnly]
  | .compound _ => by simp [exprOnly]
  | .binop l r op => fun h1 h2 => by
    simp only [exprOnly, Bool.and_eq_true] at h1
    simp only [containsUnop, Bool.or_eq_true] at h2
    cases op
    case floatDiv => exact ⟨.undefinedOperator, rfl⟩
    all_goals {
      rcases h2 with hl | hr
      · obtain ⟨e, he⟩ := lispTranslate_unop_fails l h1.1 hl
        exact ⟨e, by simp [lispTranslate, he]⟩
      · cases hres : lispTranslate l with
        | error e => exact ⟨e, by simp [lispTranslate, hres]⟩
        | ok ls =>
          obtain ⟨e, he⟩ := lispTranslate_unop_fails r h1.2 hr
          exact ⟨e, by simp [lispTranslate, hres, he]⟩
    }

/-- Claim C4: both the postfix translator and the Lisp-style translator
fail with an explicit error on every (pure-expression) tree that contains
a UnOpNode anywhere, producing no output string at all: the unary
operator is never silently dropped. -/
theorem c4_translators_reject_unop (t : ASTNode)
    (h1 : exprOnly t = true) (h2 : containsUnop t = true) :
    (∃ e, rpnTranslate t = .error e) ∧ ∃ e, lispTranslate t = .error e :=
  ⟨rpnTranslate_unop_fails t h1 h2, lispTranslate_unop_fails t h1 h2⟩

/-- Witness for claim C4 at the tree 2 + (-3). -/
theorem c4_translators_reject_unop_witness :
    (∃ e, rpnTranslate (.binop (.num (.int 2))
        (.unop (.num (.int 3)) .minus) .plus) = .error e) ∧
    ∃ e, lispTranslate (.binop (.num (.int 2))
        (.unop (.num (.int 3)) .minus) .plus) = .error e :=
  c4_translators_reject_unop
    (.binop (.num (.int 2)) (.unop (.num (.int 3)) .minus) .plus) rfl rfl

/-- Claim C2: evaluating BinOpNode(NumberLiteral(a), NumberLiteral(b), op)
yields a+b for Plus and the analogous results for Minus and Mul; the
integer-division operator truncates toward zero (7 div 2 = 3, and the
negative cases land toward zero rather than toward minus infinity), while
the float-division operator yields the non-truncated quotient
(7 / 2 = 3.5); a real operand promotes the result to the wider type. -/
theorem c2_binop_arithmetic :
    (∀ (a b : Int) (sc : List (String × NumValue)) (acc0 : NumValue),
      calculate (.binop (.num (.int a)) (.num (.int b)) .plus) ⟨sc, acc0⟩ =
        .ok (.int (a + b), ⟨sc, .int (a + b)⟩)) ∧
    (∀ (a b : Int) (sc : List (String × NumValue)) (acc0 : NumValue),
      calculate (.binop (.num (.int a)) (.num (.int b)) .minus) ⟨sc, acc0⟩ =
        .ok (.int (a - b), ⟨sc, .int (a - b)⟩)) ∧
    (∀ (a b : Int) (sc : List (String × NumValue)) (acc0 : NumValue),
      calculate (.binop (.num (.int a)) (.num (.int b)) .mul) ⟨sc, acc0⟩ =
        .ok (.int (a * b), ⟨sc, .int (a * b)⟩)) ∧
    (∀ (a b : Int) (sc : List (String × NumValue)) (acc0 : NumValue), b ≠ 0 →
      calculate (.binop (.num (.int a)) (.num (.int b)) .div) ⟨sc, acc0⟩ =
        .ok (.int (Int.tdiv a b), ⟨sc, .int (Int.tdiv a b)⟩)) ∧
    (∀ (a b : Int) (sc : List (String × NumValue)) (acc0 : NumValue), b ≠ 0 →
      calculate (.binop (.num (.int a)) (.num (.int b)) .floatDiv) ⟨sc, acc0⟩ =
        .ok (.real ((a : ℚ) / (b : ℚ)), ⟨sc, .real ((a : ℚ) / (b : ℚ))⟩)) ∧
    calculate (.binop (.num (.int 7)) (.num (.int 2)) .div) ⟨[], .int 0⟩ =
      .ok (.int 3, ⟨[], .int 3⟩) ∧
    calculate (.binop (.num (.int (-7))) (.num (.int 2)) .div) ⟨[], .int 0⟩ =
      .ok (.int (-3), ⟨[], .int (-3)⟩) ∧
    calculate (.binop (.num (.int 7)) (.num (.int (-2))) .div) ⟨[], .int 0⟩ =
      .ok (.int (-3), ⟨[], .int (-3)⟩) ∧
    calculate (.binop (.num (.int 7)) (.num (.int 2)) .floatDiv) ⟨[], .int 0⟩ =
      .ok (.real 3.5, ⟨[], .real 3.5⟩) ∧
    (∀ (a : Int) (q : ℚ) (sc : List (String × NumValue)) (acc0 : NumValue),
      calculate (.binop (.num (.int a)) (.num (.real q)) .plus) ⟨sc, acc0⟩ =
        .ok (.real ((a : ℚ) + q), ⟨sc, .real ((a : ℚ) + q)⟩)) := by
  refine ⟨fun a b sc acc0 => rfl, fun a b sc acc0 => rfl, fun a b sc acc0 => rfl,
    ?_, ?_, rfl, rfl, rfl, ?_, fun a q sc acc0 => rfl⟩
  · intro a b sc acc0 h
    simp [calculate, visit, numIsZero, numIntDiv, h]
  · intro a b sc acc0 h
    simp [calculate, visit, numIsZero, numFloatDiv, NumValue.toRat, h]
  · show Except.ok (_, _) = _
    norm_num [calculate, visit, numIsZero, numFloatDiv, NumValue.toRat]

/-- Witness for claim C2 at 7 div 2 and 7 / 2. -/
theorem c2_binop_arithmetic_witness :
    calculate (.binop (.num (.int 7)) (.num (.int 2)) .div) ⟨[], .int 0⟩ =
      .ok (.int (Int.tdiv 7 2), ⟨[], .int (Int.tdiv 7 2)⟩) ∧
    calculate (.binop (.num (.int 7)) (.num (.int 2)) .floatDiv) ⟨[], .int 0⟩ =
      .ok (.real (((7 : Int) : ℚ) / ((2 : Int) : ℚ)),
           ⟨[], .real (((7 : Int) : ℚ) / ((2 : Int) : ℚ))⟩) :=
  ⟨c2_binop_arithmetic.2.2.2.1 7 2 [] (.int 0) (by decide),
   c2_binop_arithmetic.2.2.2.2.1 7 2 [] (.int 0) (by decide)⟩

----------------------------------------------------------------
-- Claim C7: lemmas about the digit loop of ReadAsNumberConstant
----------------------------------------------------------------

/-- The digit loop collects exactly the maximal digit run starting at pos,
provided the fuel exceeds the remaining length. -/
theorem readDigitsAux_spec (fuel : Nat) (t : List Char) (pos : Nat)
    (acc : List Char) (hfuel : t.length - pos < fuel) :
    readDigitsAux fuel t pos acc =
      (acc ++ (t.drop pos).takeWhile isDigitChar,
       pos + ((t.drop pos).takeWhile isDigitChar).length) := by
  induction fuel generalizing pos acc with
  | zero => omega
  | succ n ih =>
    have hbody : readDigitsAux (n + 1) t pos acc =
        (if h : pos < t.length then
          (if isDigitChar (t.get ⟨pos, h⟩) then
            readDigitsAux n t (pos + 1) (acc ++ [t.get ⟨pos, h⟩])
          else (acc, pos))
        else (acc, pos)) := rfl
    by_cases hp : pos < t.length
    · have hdrop : t.drop pos = t.get ⟨pos, hp⟩ :: t.drop (pos + 1) := by
        rw [List.drop_eq_getElem_cons hp, List.get_eq_getElem]
      by_cases hd : isDigitChar (t.get ⟨pos, hp⟩) = true
      · rw [hbody, dif_pos hp, if_pos hd]
        rw [ih (pos + 1) (acc ++ [t.get ⟨pos, hp⟩]) (by omega)]
        rw [hdrop, List.takeWhile_cons, if_pos hd]
        simp [List.append_assoc]
        omega
      · rw [hbody, dif_pos hp, if_neg hd]
        rw [hdrop, List.takeWhile_cons, if_neg hd]
        simp
    · have hnil : t.drop pos = [] := List.drop_eq_nil_of_le (by omega)
      rw [hbody, dif_neg hp]
      simp [hnil]

/-- takeWhile of an all-satisfying run followed by a failing element. -/
theorem takeWhile_run_append (p : Char → Bool) (ds : List Char) (x : Char)
    (rest : List Char) (hds : ∀ c ∈ ds, p c = true) (hx : p x = false) :
    (ds ++ x :: rest).takeWhile p = ds := by
  induction ds with
  | nil => simp [List.takeWhile_cons, hx]
  | cons d ds ih =>
    rw [List.cons_append, List.takeWhile_cons, if_pos (hds d (by simp))]
    rw [ih (fun c hc => hds c (by simp [hc]))]

/-- ReadAsNumberConstant on a digit run followed by a dot: the dot is
always consumed, together with any digits after it, and a single
RealConstant token covering the consumed run is returned. -/
theorem readAsNumberConstant_dot (ds rest : List Char)
    (hds : ∀ c ∈ ds, isDigitChar c = true) :
    readAsNumberConstant (ds ++ '.' :: rest) 0 =
      (⟨.RealConstant, some (String.mk (ds ++ '.' :: rest.takeWhile isDigitChar))⟩,
       ds.length + 1 + (rest.takeWhile isDigitChar).length) := by
  have hdot : isDigitChar '.' = false := by decide
  have hlen : ds.length < (ds ++ '.' :: rest).length := by simp
  have hdp : (ds ++ '.' :: rest).drop ds.length = '.' :: rest :=
    List.drop_left ds ('.' :: rest)
  have hcons := List.drop_eq_getElem_cons hlen
  rw [hdp] at hcons
  injection hcons with h1 h2
  have hget : (ds ++ '.' :: rest).get ⟨ds.length, hlen⟩ = '.' := by
    rw [List.get_eq_getElem]
    exact h1.symm
  have hdrop1 : (ds ++ '.' :: rest).drop (ds.length + 1) = rest := h2.symm
  unfold readAsNumberConstant readDigits
  rw [readDigitsAux_spec _ _ _ _ (by omega)]
  rw [List.drop_zero, takeWhile_run_append _ ds '.' rest hds hdot]
  simp only [List.nil_append, Nat.zero_add]
  rw [dif_pos hlen, if_pos hget]
  rw [readDigitsAux_spec _ _ _ _ (by omega)]
  rw [hdrop1]
  simp [List.append_assoc]

/-- A digit character is not whitespace. -/
theorem isDigitChar_not_space {c : Char} (h : isDigitChar c = true) :
    isSpaceChar c = false := by
  by_contra hs
  rw [Bool.not_eq_false] at hs
  simp only [isSpaceChar, Bool.or_eq_true, decide_eq_true_eq] at hs
  rcases hs with ((((h1 | h1) | h1) | h1) | h1) | h1 <;> subst h1 <;>
    exact absurd h (by decide)

/-- A digit character is not an opening brace. -/
theorem isDigitChar_not_lbrace {c : Char} (h : isDigitChar c = true) :
    c ≠ '\x7b' := by
  intro he
  subst he
  exact absurd h (by decide)

/-- Claim C7, counterexample: lexing the input "1." does not return an
IntegerConstant for the digits with the dot left unconsumed; the single
Advance call consumes the dot and returns RealConstant "1.". -/
theorem c7_trailing_dot_counterexample :
    advance ⟨"1.".data, 0⟩ = .ok (⟨.RealConstant, some "1."⟩, ⟨"1.".data, 2⟩) ∧
    (advance ⟨"1.".data, 0⟩).toOption.map (fun r => r.1) ≠
      some ⟨.IntegerConstant, some "1"⟩ :=
  ⟨rfl, by decide⟩

/-- One step of the Advance loop at a digit-initial position dispatches to
ReadAsNumberConstant. -/
theorem advanceAux_digit_step (fuel : Nat) (t : List Char) (h0 : 0 < t.length)
    (hd : isDigitChar (t.get ⟨0, h0⟩) = true) :
    advanceAux (fuel + 1) ⟨t, 0⟩ =
      (match readAsNumberConstant t 0 with
       | (tok, p) => .ok (tok, ⟨t, p⟩)) := by
  have hbody : advanceAux (fuel + 1) ⟨t, 0⟩ =
      (if h : (0 : Nat) < t.length then
        (if isSpaceChar (t.get ⟨0, h⟩) then
          advanceAux fuel ⟨t, skipWhitespaces t 0⟩
        else if t.get ⟨0, h⟩ = '\x7b' then
          advanceAux fuel ⟨t, skipComment t 0⟩
        else if isDigitChar (t.get ⟨0, h⟩) then
          (match readAsNumberConstant t 0 with
           | (tok, p) => .ok (tok, ⟨t, p⟩))
        else if isAlphaChar (t.get ⟨0, h⟩) || t.get ⟨0, h⟩ = '_' then
          (match readAsKeywordOrIdentifier t 0 with
           | (tok, p) => .ok (tok, ⟨t, p⟩))
        else if t.get ⟨0, h⟩ = '+' then .ok (⟨.Plus, none⟩, ⟨t, 0 + 1⟩)
        else if t.get ⟨0, h⟩ = '-' then .ok (⟨.Minus, none⟩, ⟨t, 0 + 1⟩)
        else if t.get ⟨0, h⟩ = '*' then .ok (⟨.Mul, none⟩, ⟨t, 0 + 1⟩)
        else if t.get ⟨0, h⟩ = '/' then .ok (⟨.FloatDiv, none⟩, ⟨t, 0 + 1⟩)
        else if t.get ⟨0, h⟩ = '(' then .ok (⟨.LeftParen, none⟩, ⟨t, 0 + 1⟩)
        else if t.get ⟨0, h⟩ = ')' then .ok (⟨.RightParen, none⟩, ⟨t, 0 + 1⟩)
        else if t.get ⟨0, h⟩ = ';' then .ok (⟨.Semicolon, none⟩, ⟨t, 0 + 1⟩)
        else if t.get ⟨0, h⟩ = '.' then .ok (⟨.Dot, none⟩, ⟨t, 0 + 1⟩)
        else if t.get ⟨0, h⟩ = ',' then .ok (⟨.Comma, none⟩, ⟨t, 0 + 1⟩)
        else if t.get ⟨0, h⟩ = ':' then
          (if h2 : 0 + 1 < t.length then
            (if t.get ⟨0 + 1, h2⟩ = '=' then
              .ok (⟨.Assign, none⟩, ⟨t, 0 + 1 + 1⟩)
            else .ok (⟨.Colon, none⟩, ⟨t, 0 + 1⟩))
          else .ok (⟨.Colon, none⟩, ⟨t, 0 + 1⟩))
        else .error (.unrecognizedChar 0 (t.get ⟨0, h⟩)))
      else .ok (⟨.EndOfFile, none⟩, ⟨t, 0⟩)) := rfl
  rw [hbody, dif_pos h0, if_neg (by rw [isDigitChar_not_space hd]; simp),
    if_neg (isDigitChar_not_lbrace hd), if_pos hd]

/-- Claim C7 (amended): whenever a digit-initial run is immediately
followed by a dot, the lexer consumes the dot unconditionally together
with any digits after it and returns one RealConstant token covering the
consumed run — also when no digit follows the dot, in which case the
trailing dot is absorbed into the RealConstant rather than left for a
separate Dot token. -/
theorem c7_dot_always_consumed (ds rest : List Char) (hne : ds ≠ [])
    (hds : ∀ c ∈ ds, isDigitChar c = true) :
    advance ⟨ds ++ '.' :: rest, 0⟩ =
      .ok (⟨.RealConstant, some (String.mk (ds ++ '.' :: rest.takeWhile isDigitChar))⟩,
           ⟨ds ++ '.' :: rest, ds.length + 1 + (rest.takeWhile isDigitChar).length⟩) := by
  obtain ⟨d, ds', rfl⟩ : ∃ d ds', ds = d :: ds' := by
    cases ds with
    | nil => exact absurd rfl hne
    | cons d ds' => exact ⟨d, ds', rfl⟩
  have hzlt : 0 < (d :: ds' ++ '.' :: rest).length := by simp
  have hd : isDigitChar ((d :: ds' ++ '.' :: rest).get ⟨0, hzlt⟩) = true :=
    hds d (by simp)
  unfold advance
  rw [Nat.sub_zero]
  rw [advanceAux_digit_step ((d :: ds' ++ '.' :: rest).length) _ hzlt hd]
  rw [readAsNumberConstant_dot (d :: ds') rest hds]

/-- Witness for the amended claim C7 at the input "1.2x". -/
theorem c7_dot_always_consumed_witness :
    advance ⟨"1.2x".data, 0⟩ =
      .ok (⟨.RealConstant, some "1.2"⟩, ⟨"1.2x".data, 3⟩) := by
  have h := c7_dot_always_consumed ['1'] ['2', 'x'] (by decide) (by decide)
  simpa using h

/-- Witness for claim C10: the statement list and the compound of
begin end each produce a one-child compound. -/
theorem c10_compound_nonempty_witness :
    (∃ cs, (ASTNode.compound [.nop]) = .compound cs ∧ 1 ≤ cs.length) ∧
    ∃ cs, (ASTNode.compound [.nop]) = .compound cs ∧ 1 ≤ cs.length :=
  ⟨c10_compound_nonempty.1 4 ⟨⟨.End, none⟩, []⟩ (.compound [.nop])
      ⟨⟨.End, none⟩, []⟩ rfl,
   c10_compound_nonempty.2.1 4
      (parserInit [⟨.Begin, none⟩, ⟨.End, none⟩, ⟨.EndOfFile, none⟩])
      (.compound [.nop]) ⟨⟨.EndOfFile, none⟩, []⟩ rfl⟩

